import Mathlib

/-!
Verification of the PD steering engine
(src/infer/proportional_derivative_steering_engine.py).

Numbers are modelled as exact rationals.  The two external collaborators that
the engine imports but whose modules are absent from the sources
(line_of_best_fit and BacklashCompensator) are modelled from the spec: the
line fit as a concrete least-squares routine, the backlash compensator as an
abstract stateful transform over which the engine is parameterized.
-/

namespace LaneDetection

/-- A road-center sample point, vertical coordinate first, then horizontal
(the `(y, x)` convention of the upstream perception system). -/
structure Point where
  y : ℚ
  x : ℚ
deriving DecidableEq

/-- A line `x = slope * y + intercept`, parameterized over the vertical axis.
The source stores it as a pair indexed `[0] = intercept`, `[1] = slope`. -/
structure Line where
  intercept : ℚ
  slope : ℚ
deriving DecidableEq

/-- Modelled from the spec: the external pure routine `line_of_best_fit`
(module src/infer/line_of_best_fit.py, imported at line 4 of the engine but
absent from the sources).  Per section 4.4 of the spec it is a pure
least-squares fit of `x = slope * y + intercept` over the supplied points.
Degenerate denominators fall back to 0 via rational division by zero, which
coincides with the minimum-norm least-squares solution for duplicate
vertical coordinates. -/
def line_of_best_fit (ps : List Point) : Line :=
  let n : ℚ := ps.length
  let sy : ℚ := (ps.map Point.y).sum
  let sx : ℚ := (ps.map Point.x).sum
  let syy : ℚ := (ps.map fun p => p.y * p.y).sum
  let syx : ℚ := (ps.map fun p => p.y * p.x).sum
  let slope : ℚ := (n * syx - sy * sx) / (n * syy - sy * sy)
  let intercept : ℚ := (sx - slope * sy) / n
  ⟨intercept, slope⟩

/-- The type of line-fit functions consumed by the engine (spec section 4.4). -/
abbrev FitFn := List Point → Line

/-- Absolute horizontal residual of a point against a line: the distance at
line 121 of the source between the predicted and actual X positions. -/
def residual (line : Line) (p : Point) : ℚ :=
  |line.slope * p.y + line.intercept - p.x|

/-- One step of the scan at lines 110-124 of the source: the accumulator is
the running greatest distance together with its point, `none` before the
first point (the Python `None` initial value compares below every number). -/
def worstStep (line : Line) (acc : Option (ℚ × Point)) (p : Point) :
    Option (ℚ × Point) :=
  match acc with
  | none => some (residual line p, p)
  | some (gd, gp) =>
      if gd < residual line p then some (residual line p, p) else some (gd, gp)

/-- The whole scan of lines 105-124: the greatest residual over the working
set and the first point attaining it, `none` for the empty set. -/
def findWorst (line : Line) (ps : List Point) : Option (ℚ × Point) :=
  ps.foldl (worstStep line) none

/-- One pass of the loop body (lines 100-128) after the re-fit: the point the
pass removes, if any.  `none` when the greatest residual does not exceed the
threshold (line 127) or when the working set is empty (Python `None` compares
below the threshold). -/
def trimPass (fit : FitFn) (thr : ℚ) (ps : List Point) : Option Point :=
  match findWorst (fit ps) ps with
  | some (gd, gp) => if thr < gd then some gp else none
  | none => none

/-- Characterization of the fold behind `findWorst`, with an arbitrary
starting accumulator: either no element strictly beats the start, or the
result is the first element attaining the strict maximum. -/
lemma foldl_worstStep_char (line : Line) :
    ∀ (ps : List Point) (d0 : ℚ) (p0 : Point),
      (ps.foldl (worstStep line) (some (d0, p0)) = some (d0, p0) ∧
        ∀ q ∈ ps, residual line q ≤ d0) ∨
      (∃ l1 p l2, ps = l1 ++ p :: l2 ∧
        ps.foldl (worstStep line) (some (d0, p0)) = some (residual line p, p) ∧
        d0 < residual line p ∧
        (∀ q ∈ l1, residual line q < residual line p) ∧
        (∀ q ∈ l2, residual line q ≤ residual line p)) := by
  intro ps
  induction ps with
  | nil =>
      intro d0 p0
      left
      exact ⟨rfl, by simp⟩
  | cons q rest ih =>
      intro d0 p0
      by_cases hq : d0 < residual line q
      · have hstep : worstStep line (some (d0, p0)) q =
            some (residual line q, q) := by
          simp [worstStep, hq]
        rcases ih (residual line q) q with ⟨h1, h2⟩ |
          ⟨l1, p, l2, hsplit, hfold, hlt, hl1, hl2⟩
        · right
          refine ⟨[], q, rest, by simp, ?_, hq, by simp, h2⟩
          simpa [List.foldl_cons, hstep] using h1
        · right
          refine ⟨q :: l1, p, l2, by simp [hsplit], ?_,
            lt_trans hq hlt, ?_, hl2⟩
          · simpa [List.foldl_cons, hstep] using hfold
          · intro r hr
            rcases List.mem_cons.mp hr with h | h
            · exact h ▸ hlt
            · exact hl1 r h
      · have hstep : worstStep line (some (d0, p0)) q = some (d0, p0) := by
          simp [worstStep, hq]
        rcases ih d0 p0 with ⟨h1, h2⟩ |
          ⟨l1, p, l2, hsplit, hfold, hlt, hl1, hl2⟩
        · left
          constructor
          · simpa [List.foldl_cons, hstep] using h1
          · intro r hr
            rcases List.mem_cons.mp hr with h | h
            · exact h ▸ not_lt.mp hq
            · exact h2 r h
        · right
          refine ⟨q :: l1, p, l2, by simp [hsplit], ?_, hlt, ?_, hl2⟩
          · simpa [List.foldl_cons, hstep] using hfold
          · intro r hr
            rcases List.mem_cons.mp hr with h | h
            · exact h ▸ lt_of_le_of_lt (not_lt.mp hq) hlt
            · exact hl1 r h

/-- When `findWorst` returns a pair, the returned distance is the residual of
the returned point, the point is the first one attaining the maximum residual
(everything before it is strictly smaller, everything after it no larger). -/
lemma findWorst_char (line : Line) (ps : List Point) (d : ℚ) (p : Point)
    (h : findWorst line ps = some (d, p)) :
    d = residual line p ∧
    ∃ l1 l2, ps = l1 ++ p :: l2 ∧
      (∀ q ∈ l1, residual line q < d) ∧ (∀ q ∈ l2, residual line q ≤ d) := by
  cases ps with
  | nil => simp [findWorst] at h
  | cons q rest =>
      have hq : findWorst line (q :: rest) =
          rest.foldl (worstStep line) (some (residual line q, q)) := by
        simp [findWorst, List.foldl_cons, worstStep]
      rw [hq] at h
      rcases foldl_worstStep_char line rest (residual line q) q with ⟨h1, h2⟩ |
        ⟨l1, p1, l2, hsplit, hfold, hlt, hl1, hl2⟩
      · rw [h1] at h
        obtain ⟨hd, hp⟩ := Prod.mk.injEq .. ▸ Option.some.inj h
        subst hp
        refine ⟨hd.symm, [], rest, by simp, by simp, ?_⟩
        intro r hr
        exact hd ▸ h2 r hr
      · rw [hfold] at h
        obtain ⟨hd, hp⟩ := Prod.mk.injEq .. ▸ Option.some.inj h
        subst hp
        refine ⟨hd.symm, q :: l1, l2, by simp [hsplit], ?_, ?_⟩
        · intro r hr
          rcases List.mem_cons.mp hr with hh | hh
          · exact hh ▸ hd ▸ hlt
          · exact hd ▸ hl1 r hh
        · intro r hr
          exact hd ▸ hl2 r hr

/-- The point returned by `findWorst` belongs to the scanned list. -/
lemma findWorst_mem (line : Line) (ps : List Point) (d : ℚ) (p : Point)
    (h : findWorst line ps = some (d, p)) : p ∈ ps := by
  obtain ⟨-, l1, l2, hsplit, -, -⟩ := findWorst_char line ps d p h
  rw [hsplit]
  exact List.mem_append_right _ (List.mem_cons_self _ _)

/-- The point a pass removes belongs to the working set. -/
lemma trimPass_mem (fit : FitFn) (thr : ℚ) (ps : List Point) (p : Point)
    (h : trimPass fit thr ps = some p) : p ∈ ps := by
  unfold trimPass at h
  cases hw : findWorst (fit ps) ps with
  | none => rw [hw] at h; simp at h
  | some dp =>
      obtain ⟨d, p1⟩ := dp
      rw [hw] at h
      by_cases hthr : thr < d
      · simp only [hthr, if_true] at h
        exact Option.some.inj h ▸ findWorst_mem (fit ps) ps d p1 hw
      · simp [hthr] at h

/-- The trimming loop of remove_outliers (lines 94-128 of the source): run
passes, each re-fitting the line and removing the single worst point when its
residual exceeds the threshold, until a pass removes nothing.  Returns the
final working set. -/
def trimLoop (fit : FitFn) (thr : ℚ) (ps : List Point) : List Point :=
  match h : trimPass fit thr ps with
  | some p => trimLoop fit thr (ps.erase p)
  | none => ps
termination_by ps.length
decreasing_by
  have hp : p ∈ ps := trimPass_mem fit thr ps p h
  have h1 : (ps.erase p).length = ps.length - 1 := List.length_erase_of_mem hp
  have h2 : 0 < ps.length := List.length_pos_of_mem hp
  omega

/-- Number of iterations the loop at lines 97-128 performs, counted the same
way as the source loop: the final pass that removes nothing is included. -/
def trimPasses (fit : FitFn) (thr : ℚ) (ps : List Point) : Nat :=
  match h : trimPass fit thr ps with
  | some p => trimPasses fit thr (ps.erase p) + 1
  | none => 1
termination_by ps.length
decreasing_by
  have hp : p ∈ ps := trimPass_mem fit thr ps p h
  have h1 : (ps.erase p).length = ps.length - 1 := List.length_erase_of_mem hp
  have h2 : 0 < ps.length := List.length_pos_of_mem hp
  omega

/-- Sizes of the working sets handed to the line-fit function by the loop
passes (the call at line 103 of the source, one per pass). -/
def trimFitCalls (fit : FitFn) (thr : ℚ) (ps : List Point) : List Nat :=
  match h : trimPass fit thr ps with
  | some p => ps.length :: trimFitCalls fit thr (ps.erase p)
  | none => [ps.length]
termination_by ps.length
decreasing_by
  have hp : p ∈ ps := trimPass_mem fit thr ps p h
  have h1 : (ps.erase p).length = ps.length - 1 := List.length_erase_of_mem hp
  have h2 : 0 < ps.length := List.length_pos_of_mem hp
  omega

/-- Sizes of every working set remove_outliers hands to the line-fit
function: one call per loop pass (line 103) plus the final call on the final
set (line 131). -/
def remove_outliers_fit_sizes (fit : FitFn) (thr : ℚ) (ps : List Point) :
    List Nat :=
  trimFitCalls fit thr ps ++ [(trimLoop fit thr ps).length]

lemma trimPass_nil (fit : FitFn) (thr : ℚ) : trimPass fit thr [] = none := by
  simp [trimPass, findWorst]

/-- Unfolding step of the loop when a pass removes a point. -/
lemma trimLoop_step_some (fit : FitFn) (thr : ℚ) (ps : List Point) (p : Point)
    (h : trimPass fit thr ps = some p) :
    trimLoop fit thr ps = trimLoop fit thr (ps.erase p) := by
  rw [trimLoop, h]

/-- Unfolding step of the loop when a pass removes nothing. -/
lemma trimLoop_step_none (fit : FitFn) (thr : ℚ) (ps : List Point)
    (h : trimPass fit thr ps = none) :
    trimLoop fit thr ps = ps := by
  rw [trimLoop, h]

lemma trimFitCalls_step_some (fit : FitFn) (thr : ℚ) (ps : List Point)
    (p : Point) (h : trimPass fit thr ps = some p) :
    trimFitCalls fit thr ps = ps.length :: trimFitCalls fit thr (ps.erase p) := by
  rw [trimFitCalls, h]

lemma trimFitCalls_step_none (fit : FitFn) (thr : ℚ) (ps : List Point)
    (h : trimPass fit thr ps = none) :
    trimFitCalls fit thr ps = [ps.length] := by
  rw [trimFitCalls, h]

/-- The pass count is one more than the number of removals, and every
removal deletes exactly one point, so with fuel at least the length of the
list the count is bounded by fuel plus one. -/
lemma trimPasses_le_aux (fit : FitFn) (thr : ℚ) :
    ∀ (n : Nat) (ps : List Point), ps.length ≤ n →
      trimPasses fit thr ps ≤ ps.length + 1 := by
  intro n
  induction n with
  | zero =>
      intro ps h
      have hnil : ps = [] := List.length_eq_zero.mp (Nat.le_zero.mp h)
      subst hnil
      rw [trimPasses, trimPass_nil]
      simp
  | succ n ih =>
      intro ps h
      rw [trimPasses]
      cases hp : trimPass fit thr ps with
      | some p =>
          have hmem : p ∈ ps := trimPass_mem fit thr ps p hp
          have h1 : (ps.erase p).length = ps.length - 1 :=
            List.length_erase_of_mem hmem
          have h2 : 0 < ps.length := List.length_pos_of_mem hmem
          have h3 := ih (ps.erase p) (by omega)
          simp only []
          omega
      | none =>
          simp only []
          omega

/-- State of a PDSteeringEngine instance (lines 12-41 of the source),
parameterized over the state type of the backlash compensator, whose module
is absent from the sources and which the spec treats as opaque.  The six
tuning constants are stored as given; `center_line_of_best_fit` and `errors`
are the class attributes initialized to Python `None`. -/
structure PDSteeringEngine (σ : Type) where
  proportional_multiplier : ℚ
  derivative_multiplier : ℚ
  max_distance_from_line : ℚ
  ideal_center_x : ℚ
  center_y : ℚ
  steering_limit : ℚ
  center_line_of_best_fit : Option Line
  errors : Option (ℚ × ℚ)
  backlash_compensator : σ
deriving DecidableEq

/-- Construction (lines 20-41 of the source): the six tuning parameters are
stored exactly as supplied, with no validation; a fresh backlash compensator
state is installed; the diagnostics keep their class-level `None`. -/
def PDSteeringEngine.init (σ : Type) (fresh : σ)
    (proportional_multiplier derivative_multiplier max_distance_from_line
      ideal_center_x center_y steering_limit : ℚ) : PDSteeringEngine σ :=
  { proportional_multiplier := proportional_multiplier
    derivative_multiplier := derivative_multiplier
    max_distance_from_line := max_distance_from_line
    ideal_center_x := ideal_center_x
    center_y := center_y
    steering_limit := steering_limit
    center_line_of_best_fit := none
    errors := none
    backlash_compensator := fresh }

/-- remove_outliers (lines 84-134 of the source): work on a copy of the
list, run the trimming loop, and return the trimmed copy.  The line of best
fit stored during the passes (line 103) is overwritten by the unconditional
final store at line 131, so the resulting engine state carries the fit of
the final working set. -/
def PDSteeringEngine.remove_outliers {σ : Type} (fit : FitFn)
    (e : PDSteeringEngine σ) (positions : List Point) :
    List Point × PDSteeringEngine σ :=
  let final := trimLoop fit e.max_distance_from_line positions
  (final, { e with center_line_of_best_fit := some (fit final) })

/-- compute_steering_angle (lines 44-80 of the source), parameterized over
the external line-fit function and the backlash compensator transform
`comp : state → value → compensated value × new state`.  Returns the Python
result (`None` for fewer than two points, else the
`(steering_angle, proportional_error, line_slope)` tuple) together with the
engine state after the call.  The `none` branch of the inner match is
unreachable: remove_outliers always stores a fitted line. -/
def PDSteeringEngine.compute_steering_angle {σ : Type} (fit : FitFn)
    (comp : σ → ℚ → ℚ × σ) (e : PDSteeringEngine σ)
    (center_points : List Point) :
    Option (ℚ × ℚ × ℚ) × PDSteeringEngine σ :=
  if center_points.length < 2 then (none, e)
  else
    let r := e.remove_outliers fit center_points
    let e1 := r.2
    match e1.center_line_of_best_fit with
    | none => (none, e1)
    | some line =>
        let center_x := e.center_y * line.slope + line.intercept
        let proportional_error := e.ideal_center_x - center_x
        let e2 := { e1 with errors := some (proportional_error, line.slope) }
        let raw := proportional_error * e.proportional_multiplier +
          line.slope * e.derivative_multiplier
        let c := comp e2.backlash_compensator raw
        let e3 := { e2 with backlash_compensator := c.2 }
        let steering_angle :=
          if e.steering_limit < c.1 then e.steering_limit
          else if c.1 < -e.steering_limit then -e.steering_limit
          else c.1
        (some (steering_angle, proportional_error, line.slope), e3)

/-- The identity backlash compensator of the spec end-to-end example: passes
the value through and leaves its (trivial) state untouched. -/
def identityCompensator : Unit → ℚ → ℚ × Unit := fun s v => (v, s)

/-- The two Python list variables alive inside remove_outliers: the list
object the caller passed in, and the local working list that the copy at
line 87 rebinds the `positions` variable to. -/
structure ListEnv where
  caller : List Point
  work : List Point
deriving DecidableEq

/-- The trimming loop acting on both list variables: every removal (line 128
of the source) targets the local working list only; no statement of the loop
mutates the caller list. -/
def trimLoopEnv (fit : FitFn) (thr : ℚ) (env : ListEnv) : ListEnv :=
  match h : trimPass fit thr env.work with
  | some p => trimLoopEnv fit thr ⟨env.caller, env.work.erase p⟩
  | none => env
termination_by env.work.length
decreasing_by
  have hp : p ∈ env.work := trimPass_mem fit thr env.work p h
  have h1 : (env.work.erase p).length = env.work.length - 1 :=
    List.length_erase_of_mem hp
  have h2 : 0 < env.work.length := List.length_pos_of_mem hp
  omega

/-- remove_outliers seen at the level of the two list variables: line 87
starts the working list as a value-equal copy of the caller list, then the
loop runs on the pair. -/
def remove_outliers_env (fit : FitFn) (thr : ℚ) (caller : List Point) :
    ListEnv :=
  trimLoopEnv fit thr ⟨caller, caller⟩

lemma trimLoopEnv_eq_aux (fit : FitFn) (thr : ℚ) :
    ∀ (n : Nat) (env : ListEnv), env.work.length ≤ n →
      trimLoopEnv fit thr env = ⟨env.caller, trimLoop fit thr env.work⟩ := by
  intro n
  induction n with
  | zero =>
      intro env h
      obtain ⟨c, w⟩ := env
      have hnil : w = [] := List.length_eq_zero.mp (Nat.le_zero.mp h)
      subst hnil
      have heq : trimLoopEnv fit thr ⟨c, []⟩ = ⟨c, []⟩ := by
        rw [trimLoopEnv,
          (trimPass_nil fit thr :
            trimPass fit thr (ListEnv.mk c []).work = none)]
      rw [heq, trimLoop_step_none fit thr [] (trimPass_nil fit thr)]
  | succ n ih =>
      intro env h
      cases hp : trimPass fit thr env.work with
      | some p =>
          have hmem : p ∈ env.work := trimPass_mem fit thr env.work p hp
          have h1 : (env.work.erase p).length = env.work.length - 1 :=
            List.length_erase_of_mem hmem
          have h2 : 0 < env.work.length := List.length_pos_of_mem hmem
          have heq : trimLoopEnv fit thr env =
              trimLoopEnv fit thr ⟨env.caller, env.work.erase p⟩ := by
            rw [trimLoopEnv, hp]
          rw [heq, ih ⟨env.caller, env.work.erase p⟩ (by
            simp only []
            omega)]
          rw [trimLoop_step_some fit thr env.work p hp]
      | none =>
          have heq : trimLoopEnv fit thr env = env := by
            rw [trimLoopEnv, hp]
          rw [heq, trimLoop_step_none fit thr env.work hp]

/-- The trimming loop over the pair of list variables only rewrites the
working list; the caller list passes through untouched, and the working list
ends as the ordinary trimmed result. -/
lemma trimLoopEnv_char (fit : FitFn) (thr : ℚ) (env : ListEnv) :
    trimLoopEnv fit thr env = ⟨env.caller, trimLoop fit thr env.work⟩ :=
  trimLoopEnv_eq_aux fit thr env.work.length env le_rfl

/-- The point sequence of the end-to-end example in section 8 of the spec. -/
def ptsC3 : List Point := [⟨0, 0⟩, ⟨1, 0⟩, ⟨2, 0⟩, ⟨3, 100⟩]

/-- The engine of the end-to-end example: proportional gain 1, derivative
gain 0, outlier threshold 5, ideal center 0, evaluation row 2, limit 50. -/
def engC3 : PDSteeringEngine Unit := PDSteeringEngine.init Unit () 1 0 5 0 2 50

/-- A two-point collinear input used to exercise the success path. -/
def ptsW : List Point := [⟨0, 0⟩, ⟨1, 0⟩]

/-- A same-vertical-coordinate pair on which trimming degenerates. -/
def ptsC5 : List Point := [⟨0, 0⟩, ⟨0, 10⟩]

/-- An engine constructed with negative gains, threshold, and limit. -/
def engC8 : PDSteeringEngine Unit :=
  PDSteeringEngine.init Unit () (-1) (-1) (-1) 0 0 (-1)

/-- An engine equal to `engC3` in every tuning constant and in backlash
state, but with different prior diagnostics. -/
def engC9 : PDSteeringEngine Unit :=
  { engC3 with center_line_of_best_fit := some ⟨7, 7⟩, errors := some (7, 7) }

/-- The symmetric clamp of lines 71-77 of the source stays inside the band
whenever the limit is non-negative. -/
lemma clamp_bound (L v : ℚ) (hL : 0 ≤ L) :
    -L ≤ (if L < v then L else if v < -L then -L else v) ∧
    (if L < v then L else if v < -L then -L else v) ≤ L := by
  split_ifs with h1 h2
  · exact ⟨by linarith, le_rfl⟩
  · exact ⟨le_rfl, by linarith⟩
  · exact ⟨by linarith, by linarith⟩

/-- Concrete run of the trimming loop on the spec example: pass 1 fits the
line `x = 30 y - 20` and removes `(2, 0)` (residual 40, the greatest); pass
2 fits `x = (250/7) y - 100/7` and removes `(1, 0)` (residual 150/7); pass 3
fits `x = (100/3) y` exactly through the survivors and stops. -/
lemma trimLoop_ptsC3 : trimLoop line_of_best_fit 5 ptsC3 = [⟨0, 0⟩, ⟨3, 100⟩] := by
  rw [trimLoop_step_some line_of_best_fit 5 ptsC3 ⟨2, 0⟩ (by
    norm_num [trimPass, findWorst, worstStep, residual, line_of_best_fit, ptsC3])]
  have h1 : ptsC3.erase ⟨2, 0⟩ = [⟨0, 0⟩, ⟨1, 0⟩, ⟨3, 100⟩] := by
    norm_num [ptsC3, List.erase_cons_head, List.erase_cons_tail, beq_iff_eq,
      Point.mk.injEq]
  rw [h1]
  rw [trimLoop_step_some line_of_best_fit 5 _ ⟨1, 0⟩ (by
    norm_num [trimPass, findWorst, worstStep, residual, line_of_best_fit, abs])]
  have h2 : List.erase [⟨0, 0⟩, ⟨1, 0⟩, ⟨3, 100⟩] (⟨1, 0⟩ : Point) =
      [⟨0, 0⟩, ⟨3, 100⟩] := by
    norm_num [List.erase_cons_head, List.erase_cons_tail, beq_iff_eq,
      Point.mk.injEq]
  rw [h2]
  rw [trimLoop_step_none line_of_best_fit 5 _ (by
    norm_num [trimPass, findWorst, worstStep, residual, line_of_best_fit, abs])]

/-- Concrete run of the whole computation on the spec example: the final
line is `x = (100/3) y`, so the predicted center at row 2 is 200/3, the
proportional error is -200/3, the raw and compensated steering value is
-200/3, and the clamp cuts it to -50. -/
lemma compute_engC3_ptsC3 :
    engC3.compute_steering_angle line_of_best_fit identityCompensator ptsC3 =
      (some (-50, -200/3, 100/3),
        { engC3 with center_line_of_best_fit := some ⟨0, 100/3⟩,
                     errors := some (-200/3, 100/3) }) := by
  have hlen : ¬ ptsC3.length < 2 := by norm_num [ptsC3]
  simp only [PDSteeringEngine.compute_steering_angle,
    PDSteeringEngine.remove_outliers, if_neg hlen, engC3,
    PDSteeringEngine.init, trimLoop_ptsC3]
  norm_num [line_of_best_fit, identityCompensator]

/-- Concrete run on the two collinear points: the fit is exact, no point is
removed, and the steering output is 0. -/
lemma compute_engC3_ptsW :
    engC3.compute_steering_angle line_of_best_fit identityCompensator ptsW =
      (some (0, 0, 0),
        { engC3 with center_line_of_best_fit := some ⟨0, 0⟩,
                     errors := some (0, 0) }) := by
  have htrim : trimLoop line_of_best_fit 5 ptsW = ptsW := by
    rw [trimLoop_step_none line_of_best_fit 5 ptsW (by
      norm_num [trimPass, findWorst, worstStep, residual, line_of_best_fit, ptsW])]
  have hlen : ¬ ptsW.length < 2 := by norm_num [ptsW]
  simp only [PDSteeringEngine.compute_steering_angle,
    PDSteeringEngine.remove_outliers, if_neg hlen, engC3,
    PDSteeringEngine.init, htrim]
  norm_num [line_of_best_fit, identityCompensator, ptsW]

/-- Concrete run of the trimming loop on the same-row pair with threshold 1:
the least-squares fit degenerates to `x = 5`, both residuals are 5, the
first point is removed, and the next pass hands the singleton `[(0, 10)]`
to the line-fit function. -/
lemma fit_sizes_ptsC5 :
    remove_outliers_fit_sizes line_of_best_fit 1 ptsC5 = [2, 1, 1] := by
  have hp1 : trimPass line_of_best_fit 1 ptsC5 = some ⟨0, 0⟩ := by
    norm_num [trimPass, findWorst, worstStep, residual, line_of_best_fit,
      ptsC5, abs]
  have herase : ptsC5.erase ⟨0, 0⟩ = [⟨0, 10⟩] := by
    norm_num [ptsC5, List.erase_cons_head]
  have hp2 : trimPass line_of_best_fit 1 [⟨0, 10⟩] = none := by
    norm_num [trimPass, findWorst, worstStep, residual, line_of_best_fit, abs]
  rw [remove_outliers_fit_sizes,
    trimFitCalls_step_some line_of_best_fit 1 ptsC5 ⟨0, 0⟩ hp1, herase,
    trimFitCalls_step_none line_of_best_fit 1 _ hp2,
    trimLoop_step_some line_of_best_fit 1 ptsC5 ⟨0, 0⟩ hp1, herase,
    trimLoop_step_none line_of_best_fit 1 _ hp2]
  norm_num [ptsC5]

/-- Concrete run of the engine built with negative parameters: with a
negative threshold every pass removes a point, down to the empty set, and
the negative limit clamps the zero steering value to -1.  The call succeeds
and returns a tuple. -/
lemma compute_engC8_ptsW :
    engC8.compute_steering_angle line_of_best_fit identityCompensator ptsW =
      (some (-1, 0, 0),
        { engC8 with center_line_of_best_fit := some ⟨0, 0⟩,
                     errors := some (0, 0) }) := by
  have hp1 : trimPass line_of_best_fit (-1) ptsW = some ⟨0, 0⟩ := by
    norm_num [trimPass, findWorst, worstStep, residual, line_of_best_fit,
      ptsW, abs]
  have herase1 : ptsW.erase ⟨0, 0⟩ = [⟨1, 0⟩] := by
    norm_num [ptsW, List.erase_cons_head]
  have hp2 : trimPass line_of_best_fit (-1) [⟨1, 0⟩] = some ⟨1, 0⟩ := by
    norm_num [trimPass, findWorst, worstStep, residual, line_of_best_fit, abs]
  have herase2 : List.erase [⟨1, 0⟩] (⟨1, 0⟩ : Point) = [] := by
    norm_num [List.erase_cons_head]
  have htrim : trimLoop line_of_best_fit (-1) ptsW = [] := by
    rw [trimLoop_step_some line_of_best_fit (-1) ptsW ⟨0, 0⟩ hp1, herase1,
      trimLoop_step_some line_of_best_fit (-1) _ ⟨1, 0⟩ hp2, herase2,
      trimLoop_step_none line_of_best_fit (-1) [] (trimPass_nil _ _)]
  have hlen : ¬ ptsW.length < 2 := by norm_num [ptsW]
  simp only [PDSteeringEngine.compute_steering_angle,
    PDSteeringEngine.remove_outliers, if_neg hlen, engC8,
    PDSteeringEngine.init, htrim]
  norm_num [line_of_best_fit, identityCompensator]

/-- C1: for every engine whose steering limit is non-negative and every
input of at least 2 points, any steering angle returned by
compute_steering_angle lies in the closed band from minus the limit to plus
the limit, for every line-fit function and every backlash compensator. -/
theorem C1_steering_angle_within_limit {σ : Type} (fit : FitFn)
    (comp : σ → ℚ → ℚ × σ) (e : PDSteeringEngine σ) (ps : List Point)
    (a pe sl : ℚ) (e2 : PDSteeringEngine σ)
    (hL : 0 ≤ e.steering_limit) (hlen : 2 ≤ ps.length)
    (h : e.compute_steering_angle fit comp ps = (some (a, pe, sl), e2)) :
    -e.steering_limit ≤ a ∧ a ≤ e.steering_limit := by
  have hnot : ¬ ps.length < 2 := by omega
  simp only [PDSteeringEngine.compute_steering_angle,
    PDSteeringEngine.remove_outliers, if_neg hnot] at h
  rw [Prod.mk.injEq] at h
  obtain ⟨h1, -⟩ := h
  rw [Option.some.injEq, Prod.mk.injEq] at h1
  obtain ⟨ha, -⟩ := h1
  rw [← ha]
  exact clamp_bound e.steering_limit _ hL

/-- Witness for C1 at a concrete input: the example engine with limit 50 on
two collinear points returns angle 0, which the theorem bounds by 50. -/
theorem C1_witness :
    -engC3.steering_limit ≤ 0 ∧ (0 : ℚ) ≤ engC3.steering_limit :=
  C1_steering_angle_within_limit line_of_best_fit identityCompensator engC3
    ptsW 0 0 0
    { engC3 with center_line_of_best_fit := some ⟨0, 0⟩, errors := some (0, 0) }
    (by norm_num [engC3, PDSteeringEngine.init])
    (by norm_num [ptsW])
    compute_engC3_ptsW

/-- C2: with fewer than 2 points, compute_steering_angle returns the
distinguished insufficient-data result (Python None, modelled `none`) and
the engine state - stored line, stored errors, and backlash state - is
exactly what it was before the call. -/
theorem C2_insufficient_data_no_mutation {σ : Type} (fit : FitFn)
    (comp : σ → ℚ → ℚ × σ) (e : PDSteeringEngine σ) (ps : List Point)
    (h : ps.length < 2) :
    e.compute_steering_angle fit comp ps = (none, e) := by
  simp only [PDSteeringEngine.compute_steering_angle, if_pos h]

/-- Witness for C2 at a concrete input: the example engine on the empty
point list. -/
theorem C2_witness :
    engC3.compute_steering_angle line_of_best_fit identityCompensator [] =
      (none, engC3) :=
  C2_insufficient_data_no_mutation line_of_best_fit identityCompensator
    engC3 [] (by norm_num)

/-- C3 (counterexample): on the spec end-to-end example the code does not
return a zero steering angle with fitted line `x = 0`; the first trimming
pass removes the inlier `(2, 0)` instead of the outlier, and the final fit
is `x = (100/3) y`, giving steering angle -50. -/
theorem C3_example_disproof :
    (engC3.compute_steering_angle line_of_best_fit identityCompensator
        ptsC3).1 ≠ some (0, 0, 0) ∧
    (engC3.compute_steering_angle line_of_best_fit identityCompensator
        ptsC3).2.center_line_of_best_fit ≠ some ⟨0, 0⟩ := by
  rw [compute_engC3_ptsC3]
  constructor
  · intro hc
    rw [Option.some.injEq, Prod.mk.injEq] at hc
    obtain ⟨hc1, -⟩ := hc
    norm_num at hc1
  · intro hc
    simp only [Option.some.injEq, Line.mk.injEq] at hc
    obtain ⟨-, hc2⟩ := hc
    norm_num at hc2

/-- C3 (amended): on the spec end-to-end example the trimming removes
`(2, 0)` and then `(1, 0)` (the early skewed fits make inlier points look
worst), the final fitted line is intercept 0, slope 100/3, the predicted
center at row 2 is 200/3, the proportional error is -200/3, and the
returned steering angle is the clamp at -50. -/
theorem C3_example_actual :
    trimLoop line_of_best_fit 5 ptsC3 = [⟨0, 0⟩, ⟨3, 100⟩] ∧
    engC3.compute_steering_angle line_of_best_fit identityCompensator ptsC3 =
      (some (-50, -200/3, 100/3),
        { engC3 with center_line_of_best_fit := some ⟨0, 100/3⟩,
                     errors := some (-200/3, 100/3) }) :=
  ⟨trimLoop_ptsC3, compute_engC3_ptsC3⟩

/-- C4: whenever the scan of a pass selects a point, that point carries the
greatest residual against the current fitted line, every point before it in
list order has a strictly smaller residual (ties go to the first
encountered), the pass removes it exactly when the residual strictly
exceeds the threshold, and a removal deletes exactly one point. -/
theorem C4_worst_point_per_pass (fit : FitFn) (thr : ℚ) (ps : List Point)
    (d : ℚ) (p : Point) (h : findWorst (fit ps) ps = some (d, p)) :
    d = residual (fit ps) p ∧
    (∃ l1 l2, ps = l1 ++ p :: l2 ∧
      (∀ q ∈ l1, residual (fit ps) q < d) ∧
      (∀ q ∈ l2, residual (fit ps) q ≤ d)) ∧
    trimPass fit thr ps = (if thr < d then some p else none) ∧
    (ps.erase p).length + 1 = ps.length := by
  obtain ⟨hd, l1, l2, hsplit, hl1, hl2⟩ := findWorst_char (fit ps) ps d p h
  refine ⟨hd, ⟨l1, l2, hsplit, hl1, hl2⟩, ?_, ?_⟩
  · rw [trimPass, h]
  · have hmem : p ∈ ps := findWorst_mem (fit ps) ps d p h
    have h1 := List.length_erase_of_mem hmem
    have h2 := List.length_pos_of_mem hmem
    omega

/-- Witness for C4 at a concrete input: on the spec example the first pass
selects `(2, 0)` with residual 40 against the fit `x = 30 y - 20`. -/
theorem C4_witness :
    (40 : ℚ) = residual (line_of_best_fit ptsC3) ⟨2, 0⟩ ∧
    (∃ l1 l2, ptsC3 = l1 ++ (⟨2, 0⟩ : Point) :: l2 ∧
      (∀ q ∈ l1, residual (line_of_best_fit ptsC3) q < 40) ∧
      (∀ q ∈ l2, residual (line_of_best_fit ptsC3) q ≤ 40)) ∧
    trimPass line_of_best_fit 5 ptsC3 =
      (if (5 : ℚ) < 40 then some ⟨2, 0⟩ else none) ∧
    (ptsC3.erase ⟨2, 0⟩).length + 1 = ptsC3.length :=
  C4_worst_point_per_pass line_of_best_fit 5 ptsC3 40 ⟨2, 0⟩
    (by norm_num [findWorst, worstStep, residual, line_of_best_fit, ptsC3])

/-- C5 (code evidence): on the same-row pair `(0,0), (0,10)` with threshold
1, remove_outliers hands the line-fit function first the full pair (size 2)
and then, after removing the first point, the singleton working set
(size 1): the loop neither stops at the two-point floor nor fails
explicitly. -/
theorem C5_fit_invoked_below_two_points :
    remove_outliers_fit_sizes line_of_best_fit 1 ptsC5 = [2, 1, 1] ∧
    (1 : Nat) ∈ remove_outliers_fit_sizes line_of_best_fit 1 ptsC5 ∧
    (1 : Nat) < 2 := by
  refine ⟨fit_sizes_ptsC5, ?_, by norm_num⟩
  rw [fit_sizes_ptsC5]
  norm_num

/-- C6: on the success path the returned and stored quantities follow the
spec formulas: with `line` the fit of the trimmed set, the predicted center
is `slope * center_y + intercept`, the proportional error is the ideal
center minus that, the raw steering value fed to the backlash compensator
is `error * proportional_multiplier + slope * derivative_multiplier`, the
stored errors pair is `(error, slope)`, and the call returns the clamped
compensated value together with that same pair. -/
theorem C6_pd_computation_formulas {σ : Type} (fit : FitFn)
    (comp : σ → ℚ → ℚ × σ) (e : PDSteeringEngine σ) (ps : List Point)
    (hlen : 2 ≤ ps.length) :
    e.compute_steering_angle fit comp ps =
      (let line := fit (trimLoop fit e.max_distance_from_line ps)
       let center_x := line.slope * e.center_y + line.intercept
       let proportional_error := e.ideal_center_x - center_x
       let raw := proportional_error * e.proportional_multiplier +
         line.slope * e.derivative_multiplier
       let c := comp e.backlash_compensator raw
       (some ((if e.steering_limit < c.1 then e.steering_limit
          else if c.1 < -e.steering_limit then -e.steering_limit else c.1),
          proportional_error, line.slope),
        { e with
            center_line_of_best_fit := some line
            errors := some (proportional_error, line.slope)
            backlash_compensator := c.2 })) := by
  have hnot : ¬ ps.length < 2 := by omega
  simp only [PDSteeringEngine.compute_steering_angle,
    PDSteeringEngine.remove_outliers, if_neg hnot]
  rw [mul_comm (fit (trimLoop fit e.max_distance_from_line ps)).slope
    e.center_y]

/-- Witness for C6 at a concrete input: the example engine on the two
collinear points. -/
theorem C6_witness :
    engC3.compute_steering_angle line_of_best_fit identityCompensator ptsW =
      (let line := line_of_best_fit
        (trimLoop line_of_best_fit engC3.max_distance_from_line ptsW)
       let center_x := line.slope * engC3.center_y + line.intercept
       let proportional_error := engC3.ideal_center_x - center_x
       let raw := proportional_error * engC3.proportional_multiplier +
         line.slope * engC3.derivative_multiplier
       let c := identityCompensator engC3.backlash_compensator raw
       (some ((if engC3.steering_limit < c.1 then engC3.steering_limit
          else if c.1 < -engC3.steering_limit then -engC3.steering_limit
          else c.1),
          proportional_error, line.slope),
        { engC3 with
            center_line_of_best_fit := some line
            errors := some (proportional_error, line.slope)
            backlash_compensator := c.2 })) :=
  C6_pd_computation_formulas line_of_best_fit identityCompensator engC3 ptsW
    (by norm_num [ptsW])

/-- C7: the trimming loop terminates, and since every pass removes at most
one point and the loop stops at the first pass that removes none, the pass
count is bounded by the initial number of points plus one. -/
theorem C7_trim_pass_count_bounded (fit : FitFn) (thr : ℚ) (ps : List Point) :
    trimPasses fit thr ps ≤ ps.length + 1 :=
  trimPasses_le_aux fit thr ps.length ps le_rfl

/-- C8 (counterexample): constructing the engine with proportional gain -1,
derivative gain -1, threshold -1, and limit -1 is not rejected: the values
are stored as-is and the engine still computes a steering tuple on a
two-point input. -/
theorem C8_negative_params_accepted :
    engC8.proportional_multiplier = -1 ∧
    engC8.derivative_multiplier = -1 ∧
    engC8.max_distance_from_line = -1 ∧
    engC8.steering_limit = -1 ∧
    (engC8.compute_steering_angle line_of_best_fit identityCompensator
        ptsW).1 = some (-1, 0, 0) := by
  refine ⟨rfl, rfl, rfl, rfl, ?_⟩
  rw [compute_engC8_ptsW]

/-- C8 (amended): construction performs no validation at all: every tuning
parameter, negative or not, is stored exactly as supplied, and the
diagnostics start unset. -/
theorem C8_init_stores_params_unvalidated (σ : Type) (s0 : σ)
    (pm dm md icx cy lim : ℚ) :
    (PDSteeringEngine.init σ s0 pm dm md icx cy lim).proportional_multiplier
        = pm ∧
    (PDSteeringEngine.init σ s0 pm dm md icx cy lim).derivative_multiplier
        = dm ∧
    (PDSteeringEngine.init σ s0 pm dm md icx cy lim).max_distance_from_line
        = md ∧
    (PDSteeringEngine.init σ s0 pm dm md icx cy lim).ideal_center_x = icx ∧
    (PDSteeringEngine.init σ s0 pm dm md icx cy lim).center_y = cy ∧
    (PDSteeringEngine.init σ s0 pm dm md icx cy lim).steering_limit = lim ∧
    (PDSteeringEngine.init σ s0 pm dm md icx cy lim).center_line_of_best_fit
        = none ∧
    (PDSteeringEngine.init σ s0 pm dm md icx cy lim).errors = none :=
  ⟨rfl, rfl, rfl, rfl, rfl, rfl, rfl, rfl⟩

/-- C9: compute_steering_angle is deterministic: two engines that agree on
all six tuning constants and on the backlash compensator state return the
same result tuple on the same input, and on the success path (at least 2
points) end in identical states, whatever their prior diagnostics were. -/
theorem C9_compute_deterministic {σ : Type} (fit : FitFn)
    (comp : σ → ℚ → ℚ × σ) (e1 e2 : PDSteeringEngine σ) (ps : List Point)
    (hpm : e1.proportional_multiplier = e2.proportional_multiplier)
    (hdm : e1.derivative_multiplier = e2.derivative_multiplier)
    (hmd : e1.max_distance_from_line = e2.max_distance_from_line)
    (hic : e1.ideal_center_x = e2.ideal_center_x)
    (hcy : e1.center_y = e2.center_y)
    (hsl : e1.steering_limit = e2.steering_limit)
    (hbs : e1.backlash_compensator = e2.backlash_compensator) :
    (e1.compute_steering_angle fit comp ps).1 =
      (e2.compute_steering_angle fit comp ps).1 ∧
    (2 ≤ ps.length →
      (e1.compute_steering_angle fit comp ps).2 =
        (e2.compute_steering_angle fit comp ps).2) := by
  obtain ⟨pm1, dm1, md1, ic1, cy1, sl1, cl1, er1, bs1⟩ := e1
  obtain ⟨pm2, dm2, md2, ic2, cy2, sl2, cl2, er2, bs2⟩ := e2
  simp only [] at hpm hdm hmd hic hcy hsl hbs
  subst hpm hdm hmd hic hcy hsl hbs
  by_cases hl : ps.length < 2
  · refine ⟨?_, fun h2 => by omega⟩
    simp only [PDSteeringEngine.compute_steering_angle, if_pos hl]
  · refine ⟨?_, fun h2 => ?_⟩
    · simp only [PDSteeringEngine.compute_steering_angle,
        PDSteeringEngine.remove_outliers, if_neg hl]
    · simp only [PDSteeringEngine.compute_steering_angle,
        PDSteeringEngine.remove_outliers, if_neg hl]

/-- Witness for C9 at a concrete input: `engC9` differs from `engC3` only
in its prior diagnostics, and both calls on the two collinear points agree
as the theorem states. -/
theorem C9_witness :
    (engC3.compute_steering_angle line_of_best_fit identityCompensator
        ptsW).1 =
      (engC9.compute_steering_angle line_of_best_fit identityCompensator
        ptsW).1 ∧
    (2 ≤ ptsW.length →
      (engC3.compute_steering_angle line_of_best_fit identityCompensator
          ptsW).2 =
        (engC9.compute_steering_angle line_of_best_fit identityCompensator
          ptsW).2) :=
  C9_compute_deterministic line_of_best_fit identityCompensator engC3 engC9
    ptsW rfl rfl rfl rfl rfl rfl rfl

/-- C10: remove_outliers never mutates the caller list: line 87 rebinds the
local variable to a copy and every removal targets that copy, so after the
call the caller list is unchanged while the working copy ends as the
trimmed set. -/
theorem C10_caller_list_unchanged (fit : FitFn) (thr : ℚ) (l : List Point) :
    (remove_outliers_env fit thr l).caller = l ∧
    (remove_outliers_env fit thr l).work = trimLoop fit thr l := by
  rw [remove_outliers_env, trimLoopEnv_char]
  exact ⟨rfl, rfl⟩

end LaneDetection
